import Mathlib

set_option maxHeartbeats 1000000

/-!
Verification of the in-memory annotation model of a browser text-annotation
front-end.  The JavaScript sources are embedded shallowly: strings are lists
of characters or `String`, JS `null`/`undefined` become `Option`, object
collections become lists, and every DOM-independent function is translated
into a computable Lean definition with the same name.
-/

/-! ## Character classes

The tokenizer regex is `/(\s+|\w+|[^\w\s])/gu`.  `\s` under the `u` flag is
the ECMAScript WhiteSpace plus LineTerminator set; `\w` is ASCII
letters, digits and underscore.
-/

/-- JS `\s` (with the `u` flag): tab, LF, VT, FF, CR, space, NBSP, Ogham
space, the U+2000–U+200A range, LS, PS, NNBSP, MMSP, ideographic space and
BOM. -/
def isSpaceChar (c : Char) : Bool :=
  decide (c.toNat = 9 ∨ c.toNat = 10 ∨ c.toNat = 11 ∨ c.toNat = 12 ∨ c.toNat = 13 ∨
    c.toNat = 32 ∨ c.toNat = 160 ∨ c.toNat = 5760 ∨
    (8192 ≤ c.toNat ∧ c.toNat ≤ 8202) ∨ c.toNat = 8232 ∨ c.toNat = 8233 ∨
    c.toNat = 8239 ∨ c.toNat = 8287 ∨ c.toNat = 12288 ∨ c.toNat = 65279)

/-- JS `\w`: ASCII digits, upper-case letters, lower-case letters and the
underscore. -/
def isWordChar (c : Char) : Bool :=
  decide ((48 ≤ c.toNat ∧ c.toNat ≤ 57) ∨ (65 ≤ c.toNat ∧ c.toNat ≤ 90) ∨
    (97 ≤ c.toNat ∧ c.toNat ≤ 122) ∨ c.toNat = 95)

theorem isWordChar_not_isSpaceChar {c : Char} (h : isWordChar c = true) :
    isSpaceChar c = false := by
  simp only [isWordChar, decide_eq_true_eq] at h
  simp only [isSpaceChar, decide_eq_false_iff_not]
  omega

/-! ## Tokenizer (`tokenizeWithOffsets`, core/tokenize) -/

/-- One token of `tokenizeWithOffsets`: `{ text, start, end, isSpace }`.
`text` is kept as a character list so that concatenation statements are
direct.  `isSpace` is produced by the source as `/\s/u.test(tok)`, i.e. the
token text contains a whitespace character. -/
structure Token where
  text : List Char
  start : Nat
  «end» : Nat
  isSpace : Bool
deriving DecidableEq, Repr

/-- The matching loop of `tokenizeWithOffsets`.  The regex alternation
`\s+|\w+|[^\w\s]` takes, at each position, a maximal whitespace run, else a
maximal word-character run, else one single other character; `i` is the
running character offset. -/
def tokenizeAux (cs : List Char) (i : Nat) : List Token :=
  match cs with
  | [] => []
  | c :: rest =>
    if isSpaceChar c then
      let run := rest.takeWhile isSpaceChar
      { text := c :: run, start := i, «end» := i + (c :: run).length,
        isSpace := (c :: run).any isSpaceChar }
        :: tokenizeAux (rest.dropWhile isSpaceChar) (i + (c :: run).length)
    else if isWordChar c then
      let run := rest.takeWhile isWordChar
      { text := c :: run, start := i, «end» := i + (c :: run).length,
        isSpace := (c :: run).any isSpaceChar }
        :: tokenizeAux (rest.dropWhile isWordChar) (i + (c :: run).length)
    else
      { text := [c], start := i, «end» := i + 1,
        isSpace := [c].any isSpaceChar } :: tokenizeAux rest (i + 1)
termination_by cs.length
decreasing_by
  · simp only [List.length_cons]
    exact Nat.lt_succ_of_le (List.dropWhile_sublist _).length_le
  · simp only [List.length_cons]
    exact Nat.lt_succ_of_le (List.dropWhile_sublist _).length_le
  · simp

/-- `tokenizeWithOffsets(text)` from `utils/tokenize.js`. -/
def tokenizeWithOffsets (text : List Char) : List Token :=
  tokenizeAux text 0

/-- The offsets of a token list tile the character range starting at `i`:
each token starts where the previous one ended and its `end` offset is its
`start` plus its text length. -/
def tilesFrom (i : Nat) : List Token → Bool
  | [] => true
  | t :: ts =>
    (t.start == i) && (t.«end» == i + t.text.length) && tilesFrom t.«end» ts

theorem tokenizeAux_flatten (cs : List Char) (i : Nat) :
    ((tokenizeAux cs i).map Token.text).flatten = cs := by
  induction cs, i using tokenizeAux.induct with
  | case1 i => simp [tokenizeAux]
  | case2 i c rest h run ih =>
    simp only [tokenizeAux, if_pos h, List.map_cons, List.flatten_cons, ih]
    simp [run, List.takeWhile_append_dropWhile]
  | case3 i c rest h1 h2 run ih =>
    simp only [tokenizeAux, if_neg h1, if_pos h2, List.map_cons, List.flatten_cons, ih]
    simp [run, List.takeWhile_append_dropWhile]
  | case4 i c rest h1 h2 ih =>
    simp only [tokenizeAux, if_neg h1, if_neg h2, List.map_cons, List.flatten_cons, ih]
    simp

theorem tokenizeAux_text_ne_nil (cs : List Char) (i : Nat) :
    (tokenizeAux cs i).all (fun t => !t.text.isEmpty) = true := by
  induction cs, i using tokenizeAux.induct with
  | case1 i => simp [tokenizeAux]
  | case2 i c rest h run ih =>
    simp only [tokenizeAux, if_pos h, List.all_cons, ih]
    simp
  | case3 i c rest h1 h2 run ih =>
    simp only [tokenizeAux, if_neg h1, if_pos h2, List.all_cons, ih]
    simp
  | case4 i c rest h1 h2 ih =>
    simp only [tokenizeAux, if_neg h1, if_neg h2, List.all_cons, ih]
    simp

theorem tokenizeAux_tilesFrom (cs : List Char) (i : Nat) :
    tilesFrom i (tokenizeAux cs i) = true := by
  induction cs, i using tokenizeAux.induct with
  | case1 i => simp [tokenizeAux, tilesFrom]
  | case2 i c rest h run ih =>
    simp only [tokenizeAux, if_pos h, tilesFrom, beq_self_eq_true, Bool.true_and]
    exact ih
  | case3 i c rest h1 h2 run ih =>
    simp only [tokenizeAux, if_neg h1, if_pos h2, tilesFrom, beq_self_eq_true,
      Bool.true_and]
    exact ih
  | case4 i c rest h1 h2 ih =>
    simp only [tokenizeAux, if_neg h1, if_neg h2, tilesFrom, beq_self_eq_true,
      Bool.true_and, List.length_cons, List.length_nil]
    exact ih

theorem tokenizeAux_isSpace_iff (cs : List Char) (i : Nat) :
    (tokenizeAux cs i).all
      (fun t => t.isSpace == t.text.all isSpaceChar) = true := by
  induction cs, i using tokenizeAux.induct with
  | case1 i => simp [tokenizeAux]
  | case2 i c rest h run ih =>
    simp only [tokenizeAux, if_pos h, List.all_cons, ih, Bool.and_true]
    have hall : (c :: run).all isSpaceChar = true := by
      simp only [run, List.all_cons, h, Bool.true_and]
      exact List.all_eq_true.mpr (fun x hx => List.mem_takeWhile_imp hx)
    have hany : (c :: run).any isSpaceChar = true := by
      simp [List.any_cons, h]
    simp [hany, hall, h]
  | case3 i c rest h1 h2 run ih =>
    simp only [tokenizeAux, if_neg h1, if_pos h2, List.all_cons, ih, Bool.and_true]
    have hword : ∀ x ∈ (c :: run), isWordChar x = true := by
      intro x hx
      rcases List.mem_cons.mp hx with rfl | hx2
      · exact h2
      · exact List.mem_takeWhile_imp hx2
    have hany : (c :: run).any isSpaceChar = false := by
      simp only [List.any_eq_false]
      intro x hx
      simp [isWordChar_not_isSpaceChar (hword x hx)]
    have hall : (c :: run).all isSpaceChar = false := by
      simp only [List.all_cons, Bool.and_eq_false_iff]
      exact Or.inl (isWordChar_not_isSpaceChar h2)
    have hs : isSpaceChar c = false := Bool.not_eq_true _ |>.mp h1
    simp [hany, hall, hs]
  | case4 i c rest h1 h2 ih =>
    simp only [tokenizeAux, if_neg h1, if_neg h2, List.all_cons, ih, Bool.and_true]
    have hs : isSpaceChar c = false := Bool.not_eq_true _ |>.mp h1
    simp [hs]

/-- C1.  The tokenizer produces a finite ordered token sequence whose texts
concatenate back to the input exactly, with no empty token, whose
start/end offsets tile the string gaplessly starting at offset 0, and whose
`isSpace` flag is true exactly when the token text consists entirely of
whitespace characters. -/
theorem tokenizer_contract (s : List Char) :
    ((tokenizeWithOffsets s).map Token.text).flatten = s ∧
    (tokenizeWithOffsets s).all (fun t => !t.text.isEmpty) = true ∧
    tilesFrom 0 (tokenizeWithOffsets s) = true ∧
    (tokenizeWithOffsets s).all
      (fun t => t.isSpace == t.text.all isSpaceChar) = true :=
  ⟨tokenizeAux_flatten s 0, tokenizeAux_text_ne_nil s 0,
   tokenizeAux_tilesFrom s 0, tokenizeAux_isSpace_iff s 0⟩

/-! ## Spans and `spanToTokenRange` (core/helpers.js) -/

/-- A character span `{start, end}`, `end` exclusive. -/
structure Span where
  start : Nat
  «end» : Nat
deriving DecidableEq, Repr

/-- The scanning loop of `spanToTokenRange`: iterates over the tokens with
index `i`, skipping space tokens; records in `i0` the first index whose
token `end` exceeds the span start, keeps overwriting `i1` while the token
start precedes the span end, and breaks at the first non-space token whose
start has reached the span end. -/
def spanLoop (s e : Nat) : List Token → Nat → Option Nat → Option Nat →
    Option Nat × Option Nat
  | [], _, i0, i1 => (i0, i1)
  | t :: ts, i, i0, i1 =>
    if t.isSpace then spanLoop s e ts (i + 1) i0 i1
    else
      let i0h := if i0 = none ∧ s < t.«end» then some i else i0
      let i1h := if t.start < e then some i else i1
      if e ≤ t.start then (i0h, i1h)
      else spanLoop s e ts (i + 1) i0h i1h

/-- `spanToTokenRange(span)` from `core/helpers.js`, with the token list
passed explicitly in place of `state.tokens`.  Returns `null` when either
index was never assigned. -/
def spanToTokenRange (tokens : List Token) (span : Span) : Option (Nat × Nat) :=
  match spanLoop span.start span.«end» tokens 0 none none with
  | (some a, some b) => some (a, b)
  | (_, _) => none

/-- Index of the first element satisfying `p`. -/
def firstIdxP (p : Token → Bool) : List Token → Option Nat
  | [] => none
  | t :: ts => if p t then some 0 else (firstIdxP p ts).map (fun j => j + 1)

/-- Spec-side description: index of the first non-space token whose `end`
offset exceeds `s`. -/
def firstNonSpaceEndAfter (s : Nat) (toks : List Token) : Option Nat :=
  firstIdxP (fun t => !t.isSpace && decide (s < t.«end»)) toks

/-- Index of the last element satisfying `p`. -/
def lastIdxP (p : Token → Bool) : List Token → Option Nat
  | [] => none
  | t :: ts =>
    match lastIdxP p ts with
    | some j => some (j + 1)
    | none => if p t then some 0 else none

/-- Spec-side description: index of the last non-space token whose `start`
offset precedes `e`. -/
def lastNonSpaceStartBefore (e : Nat) (toks : List Token) : Option Nat :=
  lastIdxP (fun t => !t.isSpace && decide (t.start < e)) toks

theorem tilesFrom_mem_start_ge (off : Nat) (toks : List Token)
    (h : tilesFrom off toks = true) : ∀ u ∈ toks, off ≤ u.start := by
  induction toks generalizing off with
  | nil => intro u hu; cases hu
  | cons t ts ih =>
    simp only [tilesFrom, Bool.and_eq_true, beq_iff_eq] at h
    obtain ⟨⟨h1, h2⟩, h3⟩ := h
    intro u hu
    rcases List.mem_cons.mp hu with rfl | hu2
    · omega
    · have := ih t.«end» h3 u hu2
      omega

theorem lastIdxP_none_iff (p : Token → Bool) (l : List Token) :
    lastIdxP p l = none ↔ ∀ u ∈ l, p u = false := by
  induction l with
  | nil => simp [lastIdxP]
  | cons t ts ih =>
    simp only [lastIdxP]
    cases hts : lastIdxP p ts with
    | some j =>
      simp only [reduceCtorEq, false_iff]
      intro hall
      have : lastIdxP p ts = none :=
        ih.mpr (fun u hu => hall u (List.mem_cons_of_mem t hu))
      rw [this] at hts
      cases hts
    | none =>
      have hall := ih.mp hts
      constructor
      · intro h u hu
        rcases List.mem_cons.mp hu with rfl | hu2
        · cases hx : p u
          · rfl
          · rw [if_pos hx] at h
            cases h
        · exact hall u hu2
      · intro h
        rw [if_neg]
        simp [h t (List.mem_cons_self t ts)]

theorem lastIdxP_eq_none (p : Token → Bool) (l : List Token)
    (h : ∀ u ∈ l, p u = false) : lastIdxP p l = none :=
  (lastIdxP_none_iff p l).mpr h

theorem lastIdxP_get (p : Token → Bool) (l : List Token) (b : Nat)
    (h : lastIdxP p l = some b) :
    ∃ u, l.get? b = some u ∧ p u = true ∧
      ∀ k u2, b < k → l.get? k = some u2 → p u2 = false := by
  induction l generalizing b with
  | nil => simp [lastIdxP] at h
  | cons t ts ih =>
    simp only [lastIdxP] at h
    cases hts : lastIdxP p ts with
    | some j =>
      rw [hts] at h
      injection h with h
      subst h
      obtain ⟨u, hu1, hu2, hu3⟩ := ih j hts
      refine ⟨u, by simpa using hu1, hu2, ?_⟩
      intro k u2 hk hget
      match k, hk with
      | k + 1, hk =>
        exact hu3 k u2 (by omega) (by simpa using hget)
    | none =>
      rw [hts] at h
      have hall := (lastIdxP_none_iff p ts).mp hts
      by_cases hp : p t = true
      · rw [if_pos hp] at h
        injection h with h
        subst h
        refine ⟨t, rfl, hp, ?_⟩
        intro k u2 hk hget
        match k, hk with
        | k + 1, hk =>
          simp only [List.get?_cons_succ] at hget
          exact hall u2 (List.get?_mem hget)
      · rw [if_neg hp] at h
        cases h

theorem lastIdxP_some_of_get (p : Token → Bool) (l : List Token) (j : Nat)
    (t : Token) (hget : l.get? j = some t) (hp : p t = true) :
    ∃ b, lastIdxP p l = some b ∧ j ≤ b := by
  induction l generalizing j with
  | nil => simp at hget
  | cons v vs ih =>
    match j with
    | 0 =>
      simp only [List.get?_cons_zero] at hget
      injection hget with hget
      subst hget
      simp only [lastIdxP]
      cases hvs : lastIdxP p vs with
      | some b => exact ⟨b + 1, rfl, by omega⟩
      | none => exact ⟨0, by simp [hp], Nat.le_refl 0⟩
    | j + 1 =>
      obtain ⟨b, hb, hjb⟩ := ih j (by simpa using hget)
      exact ⟨b + 1, by simp [lastIdxP, hb], by omega⟩

theorem firstIdxP_some_of_get (p : Token → Bool) (l : List Token) (j : Nat)
    (t : Token) (hget : l.get? j = some t) (hp : p t = true) :
    ∃ a, firstIdxP p l = some a ∧ a ≤ j := by
  induction l generalizing j with
  | nil => simp at hget
  | cons v vs ih =>
    by_cases hv : p v = true
    · exact ⟨0, by simp [firstIdxP, hv], Nat.zero_le j⟩
    · match j with
      | 0 =>
        simp only [List.get?_cons_zero] at hget
        injection hget with hget
        subst hget
        exact absurd hp hv
      | j + 1 =>
        obtain ⟨a, ha, haj⟩ := ih j (by simpa using hget)
        exact ⟨a + 1, by simp [firstIdxP, hv, ha], by omega⟩

theorem firstIdxP_get (p : Token → Bool) (l : List Token) (a : Nat)
    (h : firstIdxP p l = some a) :
    ∃ u, l.get? a = some u ∧ p u = true := by
  induction l generalizing a with
  | nil => simp [firstIdxP] at h
  | cons v vs ih =>
    rw [firstIdxP] at h
    by_cases hv : p v = true
    · rw [if_pos hv] at h
      injection h with h
      subst h
      exact ⟨v, rfl, hv⟩
    · rw [if_neg hv] at h
      simp only [Option.map_eq_some'] at h
      obtain ⟨a2, ha2, rfl⟩ := h
      obtain ⟨u, hu1, hu2⟩ := ih a2 ha2
      exact ⟨u, by simpa using hu1, hu2⟩

theorem spanLoop_eq (s e : Nat) (toks : List Token) (off i : Nat)
    (a0 a1 : Option Nat)
    (htile : tilesFrom off toks = true)
    (hne : toks.all (fun t => !t.text.isEmpty) = true)
    (hse : s < e) :
    spanLoop s e toks i a0 a1 =
      ((match a0 with
        | some x => some x
        | none => (firstNonSpaceEndAfter s toks).map (fun j => j + i)),
       (match lastNonSpaceStartBefore e toks with
        | some j => some (j + i)
        | none => a1)) := by
  induction toks generalizing off i a0 a1 with
  | nil =>
    cases a0 <;>
      simp [spanLoop, firstNonSpaceEndAfter, lastNonSpaceStartBefore,
        firstIdxP, lastIdxP]
  | cons t ts ih =>
    simp only [tilesFrom, Bool.and_eq_true, beq_iff_eq] at htile
    obtain ⟨⟨hstart, hend⟩, htile2⟩ := htile
    simp only [List.all_cons, Bool.and_eq_true] at hne
    obtain ⟨hne1, hne2⟩ := hne
    have hlen : 0 < t.text.length := by
      cases ht : t.text
      · rw [ht] at hne1
        simp at hne1
      · simp [ht]
    have hlt : t.start < t.«end» := by omega
    by_cases hsp : t.isSpace = true
    · -- space token: skipped by the loop and by both spec-side scans
      rw [show spanLoop s e (t :: ts) i a0 a1 = spanLoop s e ts (i + 1) a0 a1 by
        simp [spanLoop, hsp]]
      rw [ih t.«end» (i + 1) a0 a1 htile2 hne2]
      have hfid : firstNonSpaceEndAfter s (t :: ts) =
          (firstNonSpaceEndAfter s ts).map (fun j => j + 1) := by
        simp [firstNonSpaceEndAfter, firstIdxP, hsp]
      have hlid : lastNonSpaceStartBefore e (t :: ts) =
          match lastNonSpaceStartBefore e ts with
          | some j => some (j + 1)
          | none => none := by
        simp only [lastNonSpaceStartBefore, lastIdxP, hsp]
        cases lastIdxP (fun u => !u.isSpace && decide (u.start < e)) ts <;> simp
      rw [hfid, hlid]
      simp only [Prod.mk.injEq]
      constructor
      · cases a0 with
        | some x => rfl
        | none =>
          cases firstNonSpaceEndAfter s ts <;> simp
          omega
      · cases lastNonSpaceStartBefore e ts <;> simp
        omega
    · have hspf : t.isSpace = false := by
        cases hx : t.isSpace
        · rfl
        · exact absurd hx hsp
      by_cases hbrk : e ≤ t.start
      · -- break: the loop returns at this token
        have hstartlt : ¬t.start < e := by omega
        have hsend : s < t.«end» := by omega
        rw [show spanLoop s e (t :: ts) i a0 a1 =
            ((if a0 = none ∧ s < t.«end» then some i else a0),
             (if t.start < e then some i else a1)) by
          simp [spanLoop, hsp, hbrk]]
        have hfid : firstNonSpaceEndAfter s (t :: ts) = some 0 := by
          simp [firstNonSpaceEndAfter, firstIdxP, hspf, hsend]
        have hlid : lastNonSpaceStartBefore e (t :: ts) = none := by
          have hts : lastIdxP (fun u => !u.isSpace && decide (u.start < e)) ts = none := by
            apply lastIdxP_eq_none
            intro u hu
            have := tilesFrom_mem_start_ge t.«end» ts htile2 u hu
            simp only [Bool.and_eq_false_iff]
            right
            simp only [decide_eq_false_iff_not]
            omega
          simp [lastNonSpaceStartBefore, lastIdxP, hts, hspf, hstartlt]
        rw [hfid, hlid]
        simp only [Prod.mk.injEq]
        constructor
        · cases a0 with
          | some x => simp
          | none => simp [hsend]
        · simp [hstartlt]
      · -- no break: recurse with updated accumulators
        have hstartlt : t.start < e := by omega
        rw [show spanLoop s e (t :: ts) i a0 a1 =
            spanLoop s e ts (i + 1)
              (if a0 = none ∧ s < t.«end» then some i else a0)
              (if t.start < e then some i else a1) by
          simp [spanLoop, hsp, hbrk]]
        rw [ih t.«end» (i + 1) _ _ htile2 hne2]
        have hp1 : (!t.isSpace && decide (t.start < e)) = true := by
          simp [hspf, hstartlt]
        simp only [Prod.mk.injEq]
        constructor
        · cases a0 with
          | some x => simp
          | none =>
            by_cases hsend : s < t.«end»
            · have hfid : firstNonSpaceEndAfter s (t :: ts) = some 0 := by
                simp [firstNonSpaceEndAfter, firstIdxP, hspf, hsend]
              simp [hsend, hfid]
            · have hfid : firstNonSpaceEndAfter s (t :: ts) =
                  (firstNonSpaceEndAfter s ts).map (fun j => j + 1) := by
                simp [firstNonSpaceEndAfter, firstIdxP, hspf, hsend]
              rw [if_neg (by simp [hsend])]
              simp only [hfid]
              cases firstNonSpaceEndAfter s ts <;> simp
              omega
        · have hlid : lastNonSpaceStartBefore e (t :: ts) =
              match lastNonSpaceStartBefore e ts with
              | some j => some (j + 1)
              | none => some 0 := by
            simp only [lastNonSpaceStartBefore, lastIdxP, hp1]
            cases lastIdxP (fun u => !u.isSpace && decide (u.start < e)) ts <;> simp
          rw [hlid, if_pos hstartlt]
          cases lastNonSpaceStartBefore e ts <;> simp
          omega

theorem tilesFrom_get_end (off : Nat) (toks : List Token)
    (htile : tilesFrom off toks = true) (k : Nat) (t : Token)
    (hk : toks.get? k = some t) : t.«end» = t.start + t.text.length := by
  induction toks generalizing off k with
  | nil => simp at hk
  | cons v vs ih =>
    simp only [tilesFrom, Bool.and_eq_true, beq_iff_eq] at htile
    obtain ⟨⟨h1, h2⟩, h3⟩ := htile
    match k with
    | 0 =>
      simp only [List.get?_cons_zero] at hk
      injection hk with hk
      subst hk
      omega
    | k + 1 =>
      exact ih v.«end» h3 k (by simpa using hk)

theorem tilesFrom_get_le (off : Nat) (toks : List Token)
    (htile : tilesFrom off toks = true) (j k : Nat) (tj tk : Token)
    (hjk : j < k) (hj : toks.get? j = some tj) (hk : toks.get? k = some tk) :
    tj.«end» ≤ tk.start := by
  induction toks generalizing off j k with
  | nil => simp at hj
  | cons v vs ih =>
    simp only [tilesFrom, Bool.and_eq_true, beq_iff_eq] at htile
    obtain ⟨⟨h1, h2⟩, h3⟩ := htile
    match j, k, hjk with
    | 0, k + 1, _ =>
      simp only [List.get?_cons_zero] at hj
      injection hj with hj
      subst hj
      have hmem : tk ∈ vs := List.get?_mem (by simpa using hk)
      exact tilesFrom_mem_start_ge v.«end» vs h3 tk hmem
    | j + 1, k + 1, hjk =>
      exact ih v.«end» h3 j k (by omega) (by simpa using hj) (by simpa using hk)

theorem spanToTokenRange_eq (toks : List Token) (span : Span)
    (htile : tilesFrom 0 toks = true)
    (hne : toks.all (fun t => !t.text.isEmpty) = true)
    (hse : span.start < span.«end») :
    spanToTokenRange toks span =
      (match firstNonSpaceEndAfter span.start toks,
             lastNonSpaceStartBefore span.«end» toks with
       | some a, some b => some (a, b)
       | _, _ => none) := by
  unfold spanToTokenRange
  rw [spanLoop_eq span.start span.«end» toks 0 0 none none htile hne hse]
  cases firstNonSpaceEndAfter span.start toks <;>
    cases lastNonSpaceStartBefore span.«end» toks <;> simp

/-- C2 (amended).  Over the tokens of any document text and any span with
`start < end`: the result of `spanToTokenRange` pairs the index of the
first non-space token whose `end` exceeds `span.start` with the index of
the last non-space token whose `start` precedes `span.end`, and is `null`
exactly when either index does not exist.  Whenever some non-space token
intersects `[span.start, span.end)` the call succeeds, the returned range
is ordered and contains that token, and every token inside the returned
range intersects the span.  (When both indices exist but no non-space
token intersects the span, the call returns the reversed pair instead of
failing; see the counterexample.) -/
theorem spanToTokenRange_amended (str : List Char) (span : Span)
    (hse : span.start < span.«end») :
    (spanToTokenRange (tokenizeWithOffsets str) span =
      (match firstNonSpaceEndAfter span.start (tokenizeWithOffsets str),
             lastNonSpaceStartBefore span.«end» (tokenizeWithOffsets str) with
       | some a, some b => some (a, b)
       | _, _ => none)) ∧
    (∀ j t, (tokenizeWithOffsets str).get? j = some t → t.isSpace = false →
      t.start < span.«end» → span.start < t.«end» →
      ∃ a b, spanToTokenRange (tokenizeWithOffsets str) span = some (a, b) ∧
        a ≤ j ∧ j ≤ b ∧
        (∀ k t2, a ≤ k → k ≤ b → (tokenizeWithOffsets str).get? k = some t2 →
          t2.start < span.«end» ∧ span.start < t2.«end»)) := by
  have htile := tokenizeAux_tilesFrom str 0
  have hne := tokenizeAux_text_ne_nil str 0
  have heq := spanToTokenRange_eq (tokenizeWithOffsets str) span htile hne hse
  refine ⟨heq, ?_⟩
  intro j t hget hspf hlt1 hlt2
  have hp0 : (fun u => !u.isSpace && decide (span.start < u.«end»)) t = true := by
    simp [hspf, hlt2]
  have hp1 : (fun u => !u.isSpace && decide (u.start < span.«end»)) t = true := by
    simp [hspf, hlt1]
  obtain ⟨a, ha, haj⟩ :=
    firstIdxP_some_of_get (fun u => !u.isSpace && decide (span.start < u.«end»))
      (tokenizeWithOffsets str) j t hget hp0
  obtain ⟨b, hb, hjb⟩ :=
    lastIdxP_some_of_get (fun u => !u.isSpace && decide (u.start < span.«end»))
      (tokenizeWithOffsets str) j t hget hp1
  have hres : spanToTokenRange (tokenizeWithOffsets str) span = some (a, b) := by
    rw [heq, show firstNonSpaceEndAfter span.start (tokenizeWithOffsets str) =
        some a from ha,
      show lastNonSpaceStartBefore span.«end» (tokenizeWithOffsets str) =
        some b from hb]
  refine ⟨a, b, hres, haj, hjb, ?_⟩
  intro k t2 hak hkb hget2
  obtain ⟨u, hu1, hu2⟩ :=
    firstIdxP_get (fun u => !u.isSpace && decide (span.start < u.«end»))
      (tokenizeWithOffsets str) a ha
  obtain ⟨v, hv1, hv2, _⟩ :=
    lastIdxP_get (fun u => !u.isSpace && decide (u.start < span.«end»))
      (tokenizeWithOffsets str) b hb
  have hu3 : span.start < u.«end» := by
    simp only [Bool.and_eq_true, decide_eq_true_eq] at hu2
    exact hu2.2
  have hv3 : v.start < span.«end» := by
    simp only [Bool.and_eq_true, decide_eq_true_eq] at hv2
    exact hv2.2
  have hend2 := tilesFrom_get_end 0 (tokenizeWithOffsets str) htile k t2 hget2
  constructor
  · by_cases hkb2 : k = b
    · subst hkb2
      rw [hget2] at hv1
      injection hv1 with hv1
      subst hv1
      exact hv3
    · have hlt : k < b := by omega
      have := tilesFrom_get_le 0 (tokenizeWithOffsets str) htile k b t2 v hlt hget2 hv1
      omega
  · by_cases hak2 : a = k
    · subst hak2
      rw [hget2] at hu1
      injection hu1 with hu1
      subst hu1
      exact hu3
    · have hlt : a < k := by omega
      have := tilesFrom_get_le 0 (tokenizeWithOffsets str) htile a k u t2 hlt hu1 hget2
      omega

theorem tokenize_ex1 : tokenizeWithOffsets ('a' :: ' ' :: ' ' :: 'b' :: []) =
    [⟨['a'], 0, 1, false⟩, ⟨[' ', ' '], 1, 3, true⟩, ⟨['b'], 3, 4, false⟩] := by
  simp [tokenizeWithOffsets, tokenizeAux, isSpaceChar, isWordChar,
    List.takeWhile, List.dropWhile]

theorem tokenize_ex2 :
    tokenizeWithOffsets ('a' :: 'b' :: ' ' :: 'c' :: 'd' :: []) =
    [⟨['a', 'b'], 0, 2, false⟩, ⟨[' '], 2, 3, true⟩,
     ⟨['c', 'd'], 3, 5, false⟩] := by
  simp [tokenizeWithOffsets, tokenizeAux, isSpaceChar, isWordChar,
    List.takeWhile, List.dropWhile]

/-- C2 (counterexample).  Over the text `"a  b"` (tokens `"a"` at [0,1),
`"  "` at [1,3), `"b"` at [3,4)) and the span [1,2) — a valid span with
`start < end` covering only whitespace — no non-space token intersects the
span, yet `spanToTokenRange` returns the reversed pair `[2, 0]` rather
than `null`, contradicting both the claimed failure condition and the
claimed ordering `i0 ≤ i1`. -/
theorem spanToTokenRange_counterexample :
    spanToTokenRange (tokenizeWithOffsets ('a' :: ' ' :: ' ' :: 'b' :: []))
        ⟨1, 2⟩ = some (2, 0) ∧
    (1 : Nat) < 2 ∧
    (tokenizeWithOffsets ('a' :: ' ' :: ' ' :: 'b' :: [])).all
      (fun t => t.isSpace || !(decide (t.start < 2) && decide (1 < t.«end»)))
      = true := by
  rw [tokenize_ex1]
  refine ⟨?_, by decide, by decide⟩
  decide

/-- Witness for C2 (amended): over `"ab cd"` and span [3,5), the token
`"cd"` (index 2) intersects the span, so the call succeeds with an ordered
range containing index 2 whose tokens all intersect the span. -/
theorem spanToTokenRange_amended_witness :
    ∃ a b,
      spanToTokenRange (tokenizeWithOffsets ('a' :: 'b' :: ' ' :: 'c' :: 'd' :: []))
        ⟨3, 5⟩ = some (a, b) ∧
      a ≤ 2 ∧ 2 ≤ b ∧
      (∀ k t2, a ≤ k → k ≤ b →
        (tokenizeWithOffsets ('a' :: 'b' :: ' ' :: 'c' :: 'd' :: [])).get? k =
          some t2 →
        t2.start < (Span.mk 3 5).«end» ∧ (Span.mk 3 5).start < t2.«end») :=
  (spanToTokenRange_amended ('a' :: 'b' :: ' ' :: 'c' :: 'd' :: []) ⟨3, 5⟩
      (by decide)).2 2 ⟨['c', 'd'], 3, 5, false⟩
    (by rw [tokenize_ex2]; rfl) rfl (by decide) (by decide)

/-! ## Annotation model data (core/state.js)

JS attribute values reaching the model are strings, numbers or `null`.
Numbers are represented only by whether they are `NaN`, which is the only
fact about a numeric value that any modelled code path inspects. -/

inductive JValue where
  | null : JValue
  | str (s : String) : JValue
  | num (isNaN : Bool) : JValue
deriving DecidableEq, Repr

/-- An entity (annotation): `{id, class, label, attrs, span, tokenRange}`. -/
structure Entity where
  id : String
  «class» : String
  label : String
  attrs : List (String × JValue)
  span : Span
  tokenRange : Nat × Nat
deriving DecidableEq, Repr

/-- Per-partition display order of relation attribute names. -/
structure AttrOrder where
  subject : List String
  object : List String
  statement : List String
deriving DecidableEq, Repr

/-- A relation: `{id, predicate, subject, object, attrs, attrOrder?}`;
`subject`/`object` are entity ids or `null`. -/
structure Relation where
  id : String
  predicate : Option String
  subject : Option String
  object : Option String
  attrs : List (String × JValue)
  attrOrder : Option AttrOrder
deriving DecidableEq, Repr

/-- The mutable collections of `state` that the claims concern. -/
structure ModelState where
  annotations : List Entity
  relations : List Relation
deriving DecidableEq, Repr

/-- `entityById(id)` from `core/helpers.js`: first annotation with the id,
else `null`. -/
def entityById (annotations : List Entity) (id : String) : Option Entity :=
  annotations.find? (fun a => a.id == id)

/-- `confirmSaveAnnotation` in create mode (`modals/entity.js`): assigns
the id `T${state.annotations.length + 1}` and appends the annotation. -/
def confirmSaveAnnotationCreate (m : ModelState) (klass label : String)
    (attrs : List (String × JValue)) (span : Span) (tokenRange : Nat × Nat) :
    ModelState :=
  { m with annotations := m.annotations ++
      [{ id := "T" ++ Nat.repr (m.annotations.length + 1), «class» := klass,
         label := label, attrs := attrs, span := span,
         tokenRange := tokenRange }] }

/-- Replace the first list element satisfying `p` by its image under `f`:
the JS pattern of `Array.find` followed by in-place mutation of the found
object. -/
def replaceFirstBy (p : α → Bool) (f : α → α) : List α → List α
  | [] => []
  | x :: xs => if p x then f x :: xs else x :: replaceFirstBy p f xs

/-- `confirmSaveAnnotation` in edit mode: finds the annotation with
`ui.editId` and replaces class, label and attrs in place; span and
tokenRange are untouched, and an unknown id leaves the state unchanged. -/
def confirmSaveAnnotationEdit (m : ModelState) (editId klass label : String)
    (attrs : List (String × JValue)) : ModelState :=
  { m with annotations := (replaceFirstBy (fun a => a.id == editId)
      (fun a => { a with «class» := klass, label := label, attrs := attrs })
      m.annotations) }

/-- `deleteAnnotation` (`modals/entity.js`): drops the entity with the
edited id and filters out every relation whose subject or object is that
id. -/
def deleteAnnotationById (m : ModelState) (id : String) : ModelState :=
  { annotations := m.annotations.filter (fun a => !(a.id == id)),
    relations := m.relations.filter
      (fun r => !(r.subject == some id) && !(r.object == some id)) }

/-- Deleting a relation row (`render/relations.js` and the relation modal
delete button): filters the relation list by id. -/
def deleteRelation (m : ModelState) (relId : String) : ModelState :=
  { m with relations := m.relations.filter (fun r => !(r.id == relId)) }

/-- C4.  `deleteAnnotationById` removes the entity with the given id, removes
exactly the relations whose subject or object equals the id, and leaves
every other entity and relation in place; afterwards no relation
references the deleted id. -/
theorem deleteAnnotation_cascades (m : ModelState) (id : String) :
    ((deleteAnnotationById m id).annotations.all (fun a => !(a.id == id)) = true) ∧
    ((deleteAnnotationById m id).relations.all
      (fun r => !(r.subject == some id) && !(r.object == some id)) = true) ∧
    (∀ a ∈ m.annotations, a.id ≠ id → a ∈ (deleteAnnotationById m id).annotations) ∧
    (∀ r ∈ m.relations, r.subject ≠ some id → r.object ≠ some id →
      r ∈ (deleteAnnotationById m id).relations) := by
  simp only [deleteAnnotationById]
  refine ⟨?_, ?_, ?_, ?_⟩
  · exact List.all_eq_true.mpr (fun a ha => (List.mem_filter.mp ha).2)
  · exact List.all_eq_true.mpr (fun r hr => (List.mem_filter.mp hr).2)
  · intro a ha hne
    exact List.mem_filter.mpr ⟨ha, by simp [hne]⟩
  · intro r hr hs ho
    exact List.mem_filter.mpr ⟨hr, by simp [hs, ho]⟩

/-! ## Entity id allocation (C3) -/

/-- An entity-level session operation: create (with the non-id fields of
the new annotation) or delete by id. -/
inductive EntityOp where
  | create (klass label : String) (attrs : List (String × JValue))
      (span : Span) (tr : Nat × Nat) : EntityOp
  | delete (id : String) : EntityOp
deriving DecidableEq, Repr

def applyEntityOp (m : ModelState) : EntityOp → ModelState
  | .create k l a s t => confirmSaveAnnotationCreate m k l a s t
  | .delete i => deleteAnnotationById m i

/-- A session: a sequence of create/delete operations from the empty
document state. -/
def runEntityOps (ops : List EntityOp) : ModelState :=
  ops.foldl applyEntityOp ⟨[], []⟩

theorem digitChar_toNat {m : Nat} (h : m < 10) :
    (Nat.digitChar m).toNat = m + 48 := by
  interval_cases m <;> rfl

theorem toDigitsCore_val (fuel : Nat) : ∀ (n : Nat) (acc : List Char),
    n < fuel →
    ∃ ds, Nat.toDigitsCore 10 fuel n acc = ds ++ acc ∧ ds ≠ [] ∧
      ∀ a : Nat, ds.foldl (fun x c => x * 10 + (c.toNat - 48)) a =
        a * 10 ^ ds.length + n := by
  induction fuel with
  | zero => intro n acc h; omega
  | succ fuel ih =>
    intro n acc hn
    have hm : n % 10 < 10 := Nat.mod_lt _ (by omega)
    by_cases h10 : n / 10 = 0
    · refine ⟨[Nat.digitChar (n % 10)], ?_, by simp, ?_⟩
      · simp [Nat.toDigitsCore, h10]
      · intro a
        simp only [List.foldl_cons, List.foldl_nil, List.length_cons,
          List.length_nil, digitChar_toNat hm]
        rw [pow_one]
        omega
    · obtain ⟨ds, hds, hne, hval⟩ :=
        ih (n / 10) (Nat.digitChar (n % 10) :: acc) (by omega)
      refine ⟨ds ++ [Nat.digitChar (n % 10)], ?_, by simp, ?_⟩
      · rw [show Nat.toDigitsCore 10 (fuel + 1) n acc =
            Nat.toDigitsCore 10 fuel (n / 10) (Nat.digitChar (n % 10) :: acc) by
          simp [Nat.toDigitsCore, h10]]
        rw [hds, List.append_assoc, List.singleton_append]
      · intro a
        rw [List.foldl_append, hval a]
        simp only [List.foldl_cons, List.foldl_nil, List.length_append,
          List.length_cons, List.length_nil, digitChar_toNat hm]
        rw [Nat.zero_add, pow_succ, ← Nat.mul_assoc]
        omega

theorem toDigits_val (n : Nat) :
    (Nat.toDigits 10 n).foldl (fun x c => x * 10 + (c.toNat - 48)) 0 = n := by
  obtain ⟨ds, hds, _, hval⟩ := toDigitsCore_val (n + 1) n [] (by omega)
  unfold Nat.toDigits
  rw [hds, List.append_nil, hval 0]
  simp

theorem nat_repr_injective {m n : Nat} (h : Nat.repr m = Nat.repr n) :
    m = n := by
  have hd : Nat.toDigits 10 m = Nat.toDigits 10 n := by
    have := congrArg String.data h
    simpa [Nat.repr, List.asString] using this
  have h2 := congrArg
    (fun l => List.foldl (fun x c => x * 10 + (c.toNat - 48)) 0 l) hd
  simpa [toDigits_val] using h2

theorem entity_idString_injective {m n : Nat}
    (h : "T" ++ Nat.repr m = "T" ++ Nat.repr n) : m = n := by
  have hd : ("T" ++ Nat.repr m).data = ("T" ++ Nat.repr n).data := by rw [h]
  simp only [String.data_append] at hd
  have hdata : (Nat.repr m).data = (Nat.repr n).data :=
    List.append_cancel_left hd
  have hds : Nat.toDigits 10 m = Nat.toDigits 10 n := by
    simpa [Nat.repr, List.asString] using hdata
  have h2 := congrArg
    (fun l => List.foldl (fun x c => x * 10 + (c.toNat - 48)) 0 l) hds
  simpa [toDigits_val] using h2

/-- C3 (counterexample).  In the session create, create, delete `T1`,
create, the last create assigns id `T2` (`T${length+1}` with length 1)
although an entity with id `T2` is still present: the final state holds
two distinct entities that share the id `T2`. -/
theorem entityId_counterexample :
    ((runEntityOps [EntityOp.create "C" "x" [] ⟨0, 1⟩ (0, 0),
        EntityOp.create "C" "y" [] ⟨0, 1⟩ (0, 0),
        EntityOp.delete "T1",
        EntityOp.create "C" "z" [] ⟨0, 1⟩ (0, 0)]).annotations.map Entity.id)
      = ["T2", "T2"] ∧
    ¬ ((runEntityOps [EntityOp.create "C" "x" [] ⟨0, 1⟩ (0, 0),
        EntityOp.create "C" "y" [] ⟨0, 1⟩ (0, 0),
        EntityOp.delete "T1",
        EntityOp.create "C" "z" [] ⟨0, 1⟩ (0, 0)]).annotations.map
        Entity.id).Nodup := by
  constructor
  · rfl
  · decide

/-- Is the operation a create? -/
def isCreateOp : EntityOp → Bool
  | .create _ _ _ _ _ => true
  | .delete _ => false

theorem runCreates (ops : List EntityOp) : ∀ m : ModelState,
    ops.all isCreateOp = true →
    ((ops.foldl applyEntityOp m).annotations.map Entity.id) =
      m.annotations.map Entity.id ++
      (List.range ops.length).map
        (fun i => "T" ++ Nat.repr (m.annotations.length + i + 1)) := by
  induction ops with
  | nil => intro m h; simp
  | cons op ops ih =>
    intro m h
    simp only [List.all_cons, Bool.and_eq_true] at h
    obtain ⟨h1, h2⟩ := h
    cases op with
    | delete i => simp [isCreateOp] at h1
    | create k l a s t =>
      simp only [List.foldl_cons, applyEntityOp]
      rw [ih _ h2]
      simp only [confirmSaveAnnotationCreate, List.map_append, List.map_cons,
        List.map_nil, List.length_append, List.length_cons, List.length_nil,
        List.length_range, List.length_map]
      rw [List.append_assoc, List.singleton_append, List.range_succ_eq_map,
        List.map_cons, List.map_map]
      congr 1
      congr 1
      refine List.map_congr_left ?_
      intro i hi
      simp only [Function.comp_apply]
      congr 2
      omega

/-- C3 (amended).  Entity ids are assigned as `T${count+1}` where count is
the number of entities currently present.  In any session consisting only
of create operations the ids are exactly `T1, T2, …` in creation order and
are pairwise distinct (no id is ever reused); after a delete, however, a
subsequent create can re-assign the id of an existing or previously
deleted entity (see the counterexample). -/
theorem entityId_amended (ops : List EntityOp)
    (h : ops.all isCreateOp = true) :
    ((runEntityOps ops).annotations.map Entity.id) =
      (List.range ops.length).map (fun i => "T" ++ Nat.repr (i + 1)) ∧
    ((runEntityOps ops).annotations.map Entity.id).Nodup := by
  have hrun := runCreates ops ⟨[], []⟩ h
  simp only [runEntityOps] at hrun ⊢
  have hids : ((ops.foldl applyEntityOp ⟨[], []⟩).annotations.map Entity.id) =
      (List.range ops.length).map (fun i => "T" ++ Nat.repr (i + 1)) := by
    rw [hrun]
    simp
  refine ⟨hids, ?_⟩
  rw [hids]
  refine List.Nodup.map ?_ (List.nodup_range _)
  intro a b hab
  have := entity_idString_injective hab
  omega

/-- Witness for C3 (amended): a 2-create session yields ids `T1`, `T2`,
pairwise distinct. -/
theorem entityId_amended_witness :
    ((runEntityOps [EntityOp.create "C" "x" [] ⟨0, 1⟩ (0, 0),
        EntityOp.create "D" "y" [] ⟨0, 1⟩ (0, 0)]).annotations.map Entity.id) =
      (List.range
        ([EntityOp.create "C" "x" [] ⟨0, 1⟩ (0, 0),
          EntityOp.create "D" "y" [] ⟨0, 1⟩ (0, 0)] : List EntityOp).length).map
        (fun i => "T" ++ Nat.repr (i + 1)) ∧
    ((runEntityOps [EntityOp.create "C" "x" [] ⟨0, 1⟩ (0, 0),
        EntityOp.create "D" "y" [] ⟨0, 1⟩ (0, 0)]).annotations.map
        Entity.id).Nodup :=
  entityId_amended _ (by decide)

/-! ## Relation schema and orientation (render/relations.js) -/

/-- A relation attribute specification kind: `enum` with allowed values,
`number`, `entity` with allowed classes, or free text. -/
inductive AttrKind where
  | enum (vals : List String) : AttrKind
  | number : AttrKind
  | entity (classes : List String) : AttrKind
  | text : AttrKind
deriving DecidableEq, Repr

structure AttrSpec where
  kind : AttrKind
  nullable : Option Bool
deriving DecidableEq, Repr

/-- One entry of `state.relationsMeta`: allowed subject classes, allowed
object classes and the attribute specs. -/
structure RelSpec where
  subject : List String
  object : List String
  attributes : List (String × AttrSpec)
deriving DecidableEq, Repr

/-- `state.relationsMeta`, an object keyed by relation name, as an
association list; lookup takes the first binding. -/
def relMetaLookup (meta : List (String × RelSpec)) (name : String) :
    Option RelSpec :=
  (meta.find? (fun p => p.1 == name)).map (fun p => p.2)

inductive RelOrientation where
  | forward : RelOrientation
  | reverse : RelOrientation
  | both : RelOrientation
deriving DecidableEq, Repr

inductive RelRole where
  | subject : RelRole
  | object : RelRole
  | either : RelRole
deriving DecidableEq, Repr

/-- `relationOrientationForPair(relName, leftClass, rightClass)`: null when
the relation is unknown or a class is missing; otherwise compares the
forward and reverse class-compatibility checks. -/
def relationOrientationForPair (meta : List (String × RelSpec))
    (relName leftClass rightClass : String) : Option RelOrientation :=
  match relMetaLookup meta relName with
  | none => none
  | some spec =>
    if leftClass.isEmpty || rightClass.isEmpty then none
    else
      let fwd := spec.subject.contains leftClass &&
        spec.object.contains rightClass
      let rev := spec.subject.contains rightClass &&
        spec.object.contains leftClass
      if fwd && !rev then some RelOrientation.forward
      else if rev && !fwd then some RelOrientation.reverse
      else if fwd && rev then some RelOrientation.both
      else none

/-- `firstEntityRoleFor(relName, klass)`: which role the schema permits
for a single entity of class `klass`. -/
def firstEntityRoleFor (meta : List (String × RelSpec))
    (relName klass : String) : Option RelRole :=
  match relMetaLookup meta relName with
  | none => none
  | some spec =>
    let subjOk := spec.subject.contains klass
    let objOk := spec.object.contains klass
    if subjOk && !objOk then some RelRole.subject
    else if !subjOk && objOk then some RelRole.object
    else if subjOk && objOk then some RelRole.either
    else none

/-- JS truthiness of an id slot: `null` and the empty string are falsy. -/
def optId : Option String → Option String
  | some s => if s.isEmpty then none else some s
  | none => none

/-- The mutation `confirmRelation` (modals/relation.js) performs on the
edited relation: sets the predicate, reorients or moves the endpoints
according to the schema, and stores the attribute values and per-group
order collected from the editor fields (passed here as arguments, since
they are read from the DOM). -/
def confirmRelationUpdate (annotations : List Entity)
    (meta : List (String × RelSpec)) (name : String)
    (newAttrs : List (String × JValue)) (newOrder : AttrOrder)
    (rel : Relation) : Relation :=
  let rel1 := { rel with predicate := some name }
  let left := (optId rel1.subject).bind (entityById annotations)
  let right := (optId rel1.object).bind (entityById annotations)
  let rel2 :=
    match left, right with
    | some le, some re =>
      if relationOrientationForPair meta name le.«class» re.«class» =
          some RelOrientation.reverse then
        { rel1 with subject := rel1.object, object := rel1.subject }
      else rel1
    | some le, none =>
      if firstEntityRoleFor meta name le.«class» = some RelRole.object then
        { rel1 with object := rel1.subject, subject := none }
      else rel1
    | none, some re =>
      if firstEntityRoleFor meta name re.«class» = some RelRole.subject then
        { rel1 with subject := rel1.object, object := none }
      else rel1
    | none, none => rel1
  { rel2 with attrs := newAttrs, attrOrder := some newOrder }

/-- `confirmRelation` at the model level: a no-op when `ui.relEditingId`
matches no relation, otherwise the in-place mutation of the first matching
relation. -/
def confirmRelation (m : ModelState) (meta : List (String × RelSpec))
    (relEditingId name : String) (newAttrs : List (String × JValue))
    (newOrder : AttrOrder) : ModelState :=
  { m with relations := (replaceFirstBy (fun r => r.id == relEditingId)
      (confirmRelationUpdate m.annotations meta name newAttrs newOrder)
      m.relations) }

theorem confirmRelationUpdate_id (annos : List Entity)
    (meta : List (String × RelSpec)) (name : String)
    (na : List (String × JValue)) (no : AttrOrder) (rel : Relation) :
    (confirmRelationUpdate annos meta name na no rel).id = rel.id := by
  unfold confirmRelationUpdate
  dsimp only
  split <;> (try split) <;> rfl

theorem replaceFirstBy_find? (p : α → Bool) (f : α → α) (l : List α)
    (x : α) (hfind : l.find? p = some x) (hf : p (f x) = true) :
    (replaceFirstBy p f l).find? p = some (f x) := by
  induction l with
  | nil => simp at hfind
  | cons y ys ih =>
    by_cases hy : p y = true
    · rw [List.find?_cons_of_pos _ hy] at hfind
      injection hfind with hfind
      subst hfind
      simp [replaceFirstBy, hy, List.find?_cons_of_pos _ hf]
    · rw [List.find?_cons_of_neg _ (by simpa using hy)] at hfind
      have hyf : p y = false := by
        cases hx : p y
        · rfl
        · exact absurd hx hy
      simp [replaceFirstBy, hyf, List.find?_cons_of_neg, ih hfind]

/-- C5.  When `confirmRelation` sets a relation's predicate: if both
endpoints resolve to entities and the schema permits their classes only in
the reverse orientation, subject and object are swapped; if the schema
permits both orientations the endpoints are left as-is; if only the
subject endpoint is set and its class is permitted uniquely as object, it
is moved there and the subject slot cleared; symmetrically when only the
object endpoint is set and its class is permitted uniquely as subject. -/
theorem confirmRelation_orientation (m : ModelState)
    (meta : List (String × RelSpec)) (relId name : String)
    (na : List (String × JValue)) (no : AttrOrder) (rel : Relation)
    (hfind : m.relations.find? (fun r => r.id == relId) = some rel) :
    (∀ le re, (optId rel.subject).bind (entityById m.annotations) = some le →
      (optId rel.object).bind (entityById m.annotations) = some re →
      relationOrientationForPair meta name le.«class» re.«class» =
        some RelOrientation.reverse →
      (confirmRelation m meta relId name na no).relations.find?
          (fun r => r.id == relId) =
        some { rel with
               predicate := some name
               subject := rel.object
               object := rel.subject
               attrs := na
               attrOrder := some no }) ∧
    (∀ le re, (optId rel.subject).bind (entityById m.annotations) = some le →
      (optId rel.object).bind (entityById m.annotations) = some re →
      relationOrientationForPair meta name le.«class» re.«class» =
        some RelOrientation.both →
      (confirmRelation m meta relId name na no).relations.find?
          (fun r => r.id == relId) =
        some { rel with
               predicate := some name
               attrs := na
               attrOrder := some no }) ∧
    (∀ le, (optId rel.subject).bind (entityById m.annotations) = some le →
      (optId rel.object).bind (entityById m.annotations) = none →
      firstEntityRoleFor meta name le.«class» = some RelRole.object →
      (confirmRelation m meta relId name na no).relations.find?
          (fun r => r.id == relId) =
        some { rel with
               predicate := some name
               subject := none
               object := rel.subject
               attrs := na
               attrOrder := some no }) ∧
    (∀ re, (optId rel.subject).bind (entityById m.annotations) = none →
      (optId rel.object).bind (entityById m.annotations) = some re →
      firstEntityRoleFor meta name re.«class» = some RelRole.subject →
      (confirmRelation m meta relId name na no).relations.find?
          (fun r => r.id == relId) =
        some { rel with
               predicate := some name
               subject := rel.object
               object := none
               attrs := na
               attrOrder := some no }) := by
  have hp := List.find?_some hfind
  have hf : (fun r => r.id == relId)
      (confirmRelationUpdate m.annotations meta name na no rel) = true := by
    show ((confirmRelationUpdate m.annotations meta name na no rel).id ==
      relId) = true
    rw [confirmRelationUpdate_id]
    exact hp
  have hfound : (confirmRelation m meta relId name na no).relations.find?
      (fun r => r.id == relId) =
      some (confirmRelationUpdate m.annotations meta name na no rel) := by
    simp only [confirmRelation]
    exact replaceFirstBy_find? _ _ _ rel hfind hf
  refine ⟨?_, ?_, ?_, ?_⟩
  · intro le re hle hre hori
    rw [hfound]
    unfold confirmRelationUpdate
    simp only [hle, hre, hori, if_pos]
  · intro le re hle hre hori
    rw [hfound]
    unfold confirmRelationUpdate
    simp only [hle, hre, hori]
    simp
  · intro le hle hre hrole
    rw [hfound]
    unfold confirmRelationUpdate
    simp only [hle, hre, hrole, if_pos]
  · intro re hle hre hrole
    rw [hfound]
    unfold confirmRelationUpdate
    simp only [hle, hre, hrole, if_pos]

/-- Witness for C5: schema `works_at {subject:[Person], object:[Org]}`,
entities `A:Person` (T1) and `B:Org` (T2), endpoints `(subject=B,
object=A)`; confirming the predicate reorients to `(subject=A, object=B)`. -/
theorem confirmRelation_orientation_witness :
    (confirmRelation
        (ModelState.mk
          [Entity.mk "T1" "Person" "A" [] (Span.mk 0 1) (0, 0),
           Entity.mk "T2" "Org" "B" [] (Span.mk 2 3) (2, 2)]
          [Relation.mk "R1" none (some "T2") (some "T1") [] none])
        [("works_at", RelSpec.mk ["Person"] ["Org"] [])]
        "R1" "works_at" [] (AttrOrder.mk [] [] [])).relations.find?
        (fun r => r.id == "R1") =
      some (Relation.mk "R1" (some "works_at") (some "T1") (some "T2") []
        (some (AttrOrder.mk [] [] []))) :=
  (confirmRelation_orientation
      (ModelState.mk
        [Entity.mk "T1" "Person" "A" [] (Span.mk 0 1) (0, 0),
         Entity.mk "T2" "Org" "B" [] (Span.mk 2 3) (2, 2)]
        [Relation.mk "R1" none (some "T2") (some "T1") [] none])
      [("works_at", RelSpec.mk ["Person"] ["Org"] [])]
      "R1" "works_at" [] (AttrOrder.mk [] [] [])
      (Relation.mk "R1" none (some "T2") (some "T1") [] none) rfl).1
    (Entity.mk "T2" "Org" "B" [] (Span.mk 2 3) (2, 2))
    (Entity.mk "T1" "Person" "A" [] (Span.mk 0 1) (0, 0))
    rfl rfl (by decide)

/-! ## Relation validator (`validateRelations`, render/relations.js) -/

def isDigitChar (c : Char) : Bool := decide (48 ≤ c.toNat ∧ c.toNat ≤ 57)

def isHexDigitChar (c : Char) : Bool :=
  decide ((48 ≤ c.toNat ∧ c.toNat ≤ 57) ∨ (65 ≤ c.toNat ∧ c.toNat ≤ 70) ∨
    (97 ≤ c.toNat ∧ c.toNat ≤ 102))

def isOctDigitChar (c : Char) : Bool := decide (48 ≤ c.toNat ∧ c.toNat ≤ 55)

def isBinDigitChar (c : Char) : Bool := decide (c.toNat = 48 ∨ c.toNat = 49)

/-- Optional ECMAScript exponent part `e`/`E`, optional sign, digits. -/
def expPartOk : List Char → Bool
  | [] => true
  | c :: rest =>
    if c = 'e' ∨ c = 'E' then
      let rest2 := match rest with
        | d :: ds => if d = '+' ∨ d = '-' then ds else d :: ds
        | [] => []
      !rest2.isEmpty && rest2.all isDigitChar
    else false

/-- Unsigned ECMAScript decimal literal: digits with optional fraction, or
fraction alone, then an optional exponent. -/
def decLiteralOk (l : List Char) : Bool :=
  let ds := l.takeWhile isDigitChar
  let r1 := l.dropWhile isDigitChar
  if ds.isEmpty then
    match r1 with
    | '.' :: r2 =>
      let fs := r2.takeWhile isDigitChar
      !fs.isEmpty && expPartOk (r2.dropWhile isDigitChar)
    | _ => false
  else
    match r1 with
    | '.' :: r2 => expPartOk (r2.dropWhile isDigitChar)
    | _ => expPartOk r1

/-- Signed decimal literal or `Infinity`. -/
def signedDecOk : List Char → Bool
  | '+' :: r => (r == "Infinity".toList) || decLiteralOk r
  | '-' :: r => (r == "Infinity".toList) || decLiteralOk r
  | l => (l == "Infinity".toList) || decLiteralOk l

/-- `0x`/`0o`/`0b` integer literals (unsigned only, as in ECMAScript). -/
def nonDecIntOk : List Char → Bool
  | '0' :: x :: rest =>
    if x = 'x' ∨ x = 'X' then !rest.isEmpty && rest.all isHexDigitChar
    else if x = 'o' ∨ x = 'O' then !rest.isEmpty && rest.all isOctDigitChar
    else if x = 'b' ∨ x = 'B' then !rest.isEmpty && rest.all isBinDigitChar
    else false
  | _ => false

/-- Whether `Number(s)` is `NaN` for a string `s`: trim whitespace; the
empty remainder converts to `0`; otherwise the remainder must match the
ECMAScript string numeric grammar. -/
def jsStringToNumberIsNaN (s : String) : Bool :=
  let t := ((s.toList.dropWhile isSpaceChar).reverse.dropWhile
    isSpaceChar).reverse
  if t.isEmpty then false
  else !(nonDecIntOk t || signedDecOk t)

/-- `v === undefined || v === null || v === ''` on a looked-up attribute
value. -/
def jvalAbsent : Option JValue → Bool
  | none => true
  | some JValue.null => true
  | some (JValue.str s) => s.isEmpty
  | some (JValue.num _) => false

/-- `Number.isNaN(Number(v))` for a present value. -/
def jvalNumberIsNaN : JValue → Bool
  | JValue.null => false
  | JValue.str s => jsStringToNumberIsNaN s
  | JValue.num nan => nan

/-- `r.attrs[name]`: association-list lookup, `undefined` when missing. -/
def attrsLookup (attrs : List (String × JValue)) (name : String) :
    Option JValue :=
  (attrs.find? (fun p => p.1 == name)).map (fun p => p.2)

/-- The body of the attribute loop of `validateRelations` for one spec
entry: `none` when the attribute passes (or is skipped), otherwise the
error message the loop breaks with. -/
def attrCheck (annotations : List Entity) (rattrs : List (String × JValue))
    (entry : String × AttrSpec) : Option String :=
  let name := entry.1
  let aspec := entry.2
  let v := attrsLookup rattrs name
  if jvalAbsent v && (aspec.nullable == some false) then
    some ("Missing required attribute: " ++ name)
  else if jvalAbsent v then none
  else
    match v, aspec.kind with
    | some (JValue.str s), AttrKind.enum vals =>
      if vals.contains s then none
      else some ("\x27" ++ name ++ "\x27 has invalid value")
    | some _, AttrKind.enum _ =>
      some ("\x27" ++ name ++ "\x27 has invalid value")
    | some w, AttrKind.number =>
      if jvalNumberIsNaN w then some ("\x27" ++ name ++ "\x27 must be a number")
      else none
    | some (JValue.str s), AttrKind.entity classes =>
      (match entityById annotations s with
       | some ent =>
         if classes.contains ent.«class» then none
         else some ("\x27" ++ name ++ "\x27 must refer to a " ++
           String.intercalate " or " classes)
       | none => some ("\x27" ++ name ++ "\x27 must refer to a " ++
           String.intercalate " or " classes))
    | some _, AttrKind.entity classes =>
      some ("\x27" ++ name ++ "\x27 must refer to a " ++
        String.intercalate " or " classes)
    | some _, AttrKind.text => none
    | none, _ => none

/-- The attribute loop: first failing attribute in spec order, if any. -/
def validateAttrs (annotations : List Entity)
    (rattrs : List (String × JValue))
    (specAttrs : List (String × AttrSpec)) : Option String :=
  specAttrs.findSome? (attrCheck annotations rattrs)

/-- The per-relation check sequence of `validateRelations`: completeness,
known predicate, endpoint resolution, class compatibility, then the
attribute loop; returns the first failure's message, `none` when the
relation passes. -/
def validateRelation (annotations : List Entity)
    (meta : List (String × RelSpec)) (r : Relation) : Option String :=
  match r.subject, r.object, r.predicate with
  | some sid, some oid, some p =>
    if sid.isEmpty || oid.isEmpty || p.isEmpty || p.toList.all isSpaceChar then
      some "Relation needs subject, type, and object"
    else
      match relMetaLookup meta p with
      | none => some "Unknown relation"
      | some spec =>
        match entityById annotations sid, entityById annotations oid with
        | some left, some right =>
          let fwd := spec.subject.contains left.«class» &&
            spec.object.contains right.«class»
          let rev := spec.subject.contains right.«class» &&
            spec.object.contains left.«class»
          if !fwd && !rev then some "Classes not allowed for this relation"
          else validateAttrs annotations r.attrs spec.attributes
        | _, _ => some "Dangling entity reference"
  | _, _, _ => some "Relation needs subject, type, and object"

/-- `validateRelations()`: overall verdict (`ok`) plus, per relation in
iteration order, the reported error message if any. -/
def validateRelations (m : ModelState) (meta : List (String × RelSpec)) :
    Bool × List (Option String) :=
  let msgs := m.relations.map (validateRelation m.annotations meta)
  (msgs.all Option.isNone, msgs)

/-- `validateRelations` with the model state threaded through explicitly:
the source only reads `state.relations`/`state.annotations` (its side
effects are DOM row styling), so the state component is returned
unchanged. -/
def validateRelationsSt (m : ModelState) (meta : List (String × RelSpec)) :
    (Bool × List (Option String)) × ModelState :=
  (validateRelations m meta, m)

/-- C6.  A relation with `object == null` (likewise `subject == null`, or a
predicate that is null, empty or whitespace-only) always fails validation
with the completeness message, before any later check runs, and the
overall verdict is false. -/
theorem validator_incomplete (m : ModelState)
    (meta : List (String × RelSpec)) (r : Relation) (hmem : r ∈ m.relations)
    (h : r.object = none ∨ r.subject = none ∨ r.predicate = none ∨
      (∃ p, r.predicate = some p ∧ p.toList.all isSpaceChar = true)) :
    validateRelation m.annotations meta r =
      some "Relation needs subject, type, and object" ∧
    (validateRelations m meta).1 = false := by
  have hmsg : validateRelation m.annotations meta r =
      some "Relation needs subject, type, and object" := by
    rcases h with h | h | h | ⟨p, hp, hblank⟩
    · cases hs : r.subject <;> cases hq : r.predicate <;>
        simp [validateRelation, h, hs, hq]
    · cases ho : r.object <;> cases hq : r.predicate <;>
        simp [validateRelation, h, ho, hq]
    · cases hs : r.subject <;> cases ho : r.object <;>
        simp [validateRelation, h, hs, ho]
    · cases hs : r.subject <;> cases ho : r.object <;>
        (simp only [validateRelation, hp, hs, ho]
         try rw [if_pos (by rw [hblank]; simp)])
  refine ⟨hmsg, ?_⟩
  by_contra hcon
  have hall : (validateRelations m meta).1 = true := by
    cases hx : (validateRelations m meta).1
    · exact absurd hx hcon
    · rfl
  simp only [validateRelations] at hall
  have hmem2 : validateRelation m.annotations meta r ∈
      m.relations.map (validateRelation m.annotations meta) :=
    List.mem_map_of_mem _ hmem
  have := List.all_eq_true.mp hall _ hmem2
  rw [hmsg] at this
  simp at this

/-- Witness for C6: one relation whose object is null fails with the
completeness message and makes the whole validation fail. -/
theorem validator_incomplete_witness :
    validateRelation ([] : List Entity) ([] : List (String × RelSpec))
        (Relation.mk "R1" (some "knows") (some "T1") none [] none) =
      some "Relation needs subject, type, and object" ∧
    (validateRelations
        (ModelState.mk []
          [Relation.mk "R1" (some "knows") (some "T1") none [] none])
        ([] : List (String × RelSpec))).1 = false :=
  validator_incomplete
    (ModelState.mk []
      [Relation.mk "R1" (some "knows") (some "T1") none [] none])
    [] (Relation.mk "R1" (some "knows") (some "T1") none [] none)
    (List.mem_cons_self _ _) (Or.inl rfl)

/-- C7.  Validation is deterministic and idempotent in the model state: it
does not mutate the model, and running it twice in a row returns the same
verdict and the same per-relation messages. -/
theorem validator_idempotent (m : ModelState)
    (meta : List (String × RelSpec)) :
    validateRelationsSt (validateRelationsSt m meta).2 meta =
      validateRelationsSt m meta := rfl

/-- C8.  The per-attribute checks of the validator: a required
(`nullable === false`) attribute with an absent/null/empty value reports
the missing-required error, while an optional absent value is skipped; a
present enum value passes exactly when it is a string in the allowed set
and otherwise reports the invalid-value error; a present number value
fails exactly when `Number(v)` is `NaN`, with the must-be-a-number error;
a present entity value passes exactly when it resolves to an existing
entity of an allowed class and otherwise reports the must-refer-to error;
and for a relation that passed all earlier checks, the relation's verdict
is the first failing attribute check in spec order. -/
theorem validator_attr_checks :
    (∀ (annos : List Entity) (rattrs : List (String × JValue)) name aspec,
      jvalAbsent (attrsLookup rattrs name) = true →
      aspec.nullable = some false →
      attrCheck annos rattrs (name, aspec) =
        some ("Missing required attribute: " ++ name)) ∧
    (∀ (annos : List Entity) (rattrs : List (String × JValue)) name aspec,
      jvalAbsent (attrsLookup rattrs name) = true →
      aspec.nullable ≠ some false →
      attrCheck annos rattrs (name, aspec) = none) ∧
    (∀ (annos : List Entity) (rattrs : List (String × JValue)) name nb vals w,
      attrsLookup rattrs name = some w → jvalAbsent (some w) = false →
      ((attrCheck annos rattrs (name, AttrSpec.mk (AttrKind.enum vals) nb) =
          none ↔ ∃ s, w = JValue.str s ∧ vals.contains s = true) ∧
       (attrCheck annos rattrs (name, AttrSpec.mk (AttrKind.enum vals) nb) =
          none ∨
        attrCheck annos rattrs (name, AttrSpec.mk (AttrKind.enum vals) nb) =
          some ("\x27" ++ name ++ "\x27 has invalid value")))) ∧
    (∀ (annos : List Entity) (rattrs : List (String × JValue)) name nb w,
      attrsLookup rattrs name = some w → jvalAbsent (some w) = false →
      attrCheck annos rattrs (name, AttrSpec.mk AttrKind.number nb) =
        (if jvalNumberIsNaN w then
          some ("\x27" ++ name ++ "\x27 must be a number")
         else none)) ∧
    (∀ (annos : List Entity) (rattrs : List (String × JValue)) name nb
        classes w,
      attrsLookup rattrs name = some w → jvalAbsent (some w) = false →
      ((attrCheck annos rattrs
          (name, AttrSpec.mk (AttrKind.entity classes) nb) = none ↔
        ∃ s ent, w = JValue.str s ∧ entityById annos s = some ent ∧
          classes.contains ent.«class» = true) ∧
       (attrCheck annos rattrs
          (name, AttrSpec.mk (AttrKind.entity classes) nb) = none ∨
        attrCheck annos rattrs
          (name, AttrSpec.mk (AttrKind.entity classes) nb) =
          some ("\x27" ++ name ++ "\x27 must refer to a " ++
            String.intercalate " or " classes)))) ∧
    (∀ (annos : List Entity) (meta : List (String × RelSpec)) (r : Relation)
        sid oid p spec le re,
      r.subject = some sid → r.object = some oid → r.predicate = some p →
      sid.isEmpty = false → oid.isEmpty = false → p.isEmpty = false →
      p.toList.all isSpaceChar = false →
      relMetaLookup meta p = some spec →
      entityById annos sid = some le → entityById annos oid = some re →
      (spec.subject.contains le.«class» && spec.object.contains re.«class» ||
       spec.subject.contains re.«class» && spec.object.contains le.«class»)
        = true →
      validateRelation annos meta r =
        spec.attributes.findSome? (attrCheck annos r.attrs)) := by
  refine ⟨?_, ?_, ?_, ?_, ?_, ?_⟩
  · intro annos rattrs name aspec habs hnul
    simp [attrCheck, habs, hnul]
  · intro annos rattrs name aspec habs hnul
    have hbeq : (aspec.nullable == some false) = false := by
      cases hx : aspec.nullable == some false
      · rfl
      · exact absurd (eq_of_beq hx) hnul
    simp [attrCheck, habs, hbeq]
  · intro annos rattrs name nb vals w hlook habs
    cases w with
    | null => simp [jvalAbsent] at habs
    | str s =>
      have hcm : vals.contains s = true ↔ s ∈ vals := List.elem_iff
      constructor
      · by_cases hc : vals.contains s = true
        · simp [attrCheck, hlook, habs, hc, hcm.mp hc]
        · simp only [List.elem_iff] at hc
          simp [attrCheck, hlook, habs, hc]
      · by_cases hc : vals.contains s = true
        · exact Or.inl (by simp [attrCheck, hlook, habs, hc, hcm.mp hc])
        · exact Or.inr (by
            simp only [List.elem_iff] at hc
            simp [attrCheck, hlook, habs, hc])
    | num nan =>
      constructor
      · simp [attrCheck, hlook, habs]
      · exact Or.inr (by simp [attrCheck, hlook, habs])
  · intro annos rattrs name nb w hlook habs
    cases w with
    | null => simp [jvalAbsent] at habs
    | str s => simp [attrCheck, hlook, habs]
    | num nan => simp [attrCheck, hlook, habs, jvalAbsent]
  · intro annos rattrs name nb classes w hlook habs
    cases w with
    | null => simp [jvalAbsent] at habs
    | str s =>
      constructor
      · cases hent : entityById annos s with
        | none => simp [attrCheck, hlook, habs, hent]
        | some ent =>
          by_cases hc : classes.contains ent.«class» = true
          · simp [attrCheck, hlook, habs, hent, hc, List.elem_iff.mp hc]
          · simp only [List.elem_iff] at hc
            simp [attrCheck, hlook, habs, hent, hc]
      · cases hent : entityById annos s with
        | none => exact Or.inr (by simp [attrCheck, hlook, habs, hent])
        | some ent =>
          by_cases hc : classes.contains ent.«class» = true
          · exact Or.inl (by
              simp [attrCheck, hlook, habs, hent, hc, List.elem_iff.mp hc])
          · exact Or.inr (by
              simp only [List.elem_iff] at hc
              simp [attrCheck, hlook, habs, hent, hc])
    | num nan =>
      constructor
      · simp [attrCheck, hlook, habs]
      · exact Or.inr (by simp [attrCheck, hlook, habs])
  · intro annos meta r sid oid p spec le re hs ho hp hsid hoid hpe hblank
      hmetal hle hre hcompat
    simp only [validateRelation, hs, ho, hp]
    rw [if_neg (by rw [hsid, hoid, hpe, hblank]; simp)]
    rw [hmetal]
    simp only [hle, hre]
    have hcls : (!(spec.subject.contains le.«class» &&
        spec.object.contains re.«class») &&
        !(spec.subject.contains re.«class» &&
          spec.object.contains le.«class»)) = false := by
      cases hfwd : (spec.subject.contains le.«class» &&
          spec.object.contains re.«class») <;>
        cases hrev : (spec.subject.contains re.«class» &&
            spec.object.contains le.«class») <;>
        (simp_all
         try tauto)
    rw [if_neg (by rw [hcls]; simp)]
    rfl

/-- Witness for C8: concrete instances of each attribute check — a missing
required attribute, a valid enum value, a non-numeric string in a number
attribute, an entity value resolving to an allowed class, and the
attribute loop outcome for a relation that passed the earlier checks. -/
theorem validator_attr_checks_witness :
    attrCheck [] [] ("a", AttrSpec.mk AttrKind.text (some false)) =
      some ("Missing required attribute: " ++ "a") ∧
    attrCheck [] [("k", JValue.str "x")]
      ("k", AttrSpec.mk (AttrKind.enum ["x", "y"]) none) = none ∧
    attrCheck [] [("n", JValue.str "abc")]
      ("n", AttrSpec.mk AttrKind.number none) =
      some ("\x27" ++ "n" ++ "\x27 must be a number") ∧
    attrCheck [Entity.mk "T1" "Person" "A" [] (Span.mk 0 1) (0, 0)]
      [("e", JValue.str "T1")]
      ("e", AttrSpec.mk (AttrKind.entity ["Person"]) none) = none ∧
    validateRelation [Entity.mk "T1" "Person" "A" [] (Span.mk 0 1) (0, 0),
        Entity.mk "T2" "Person" "B" [] (Span.mk 2 3) (2, 2)]
      [("knows", RelSpec.mk ["Person"] ["Person"]
          [("note", AttrSpec.mk AttrKind.text none)])]
      (Relation.mk "R1" (some "knows") (some "T1") (some "T2") [] none) =
      ([("note", AttrSpec.mk AttrKind.text none)]).findSome?
        (attrCheck [Entity.mk "T1" "Person" "A" [] (Span.mk 0 1) (0, 0),
          Entity.mk "T2" "Person" "B" [] (Span.mk 2 3) (2, 2)] []) := by
  refine ⟨?_, ?_, ?_, ?_, ?_⟩
  · exact validator_attr_checks.1 [] [] "a"
      (AttrSpec.mk AttrKind.text (some false)) rfl rfl
  · exact (validator_attr_checks.2.2.1 [] [("k", JValue.str "x")] "k" none
      ["x", "y"] (JValue.str "x") rfl rfl).1.mpr ⟨"x", rfl, by decide⟩
  · have h := validator_attr_checks.2.2.2.1 [] [("n", JValue.str "abc")] "n"
      none (JValue.str "abc") rfl rfl
    rw [h]
    decide
  · exact (validator_attr_checks.2.2.2.2.1
      [Entity.mk "T1" "Person" "A" [] (Span.mk 0 1) (0, 0)]
      [("e", JValue.str "T1")] "e" none ["Person"] (JValue.str "T1")
      rfl rfl).1.mpr
      ⟨"T1", Entity.mk "T1" "Person" "A" [] (Span.mk 0 1) (0, 0), rfl, rfl,
        by decide⟩
  · exact validator_attr_checks.2.2.2.2.2
      [Entity.mk "T1" "Person" "A" [] (Span.mk 0 1) (0, 0),
       Entity.mk "T2" "Person" "B" [] (Span.mk 2 3) (2, 2)]
      [("knows", RelSpec.mk ["Person"] ["Person"]
          [("note", AttrSpec.mk AttrKind.text none)])]
      (Relation.mk "R1" (some "knows") (some "T1") (some "T2") [] none)
      "T1" "T2" "knows"
      (RelSpec.mk ["Person"] ["Person"]
        [("note", AttrSpec.mk AttrKind.text none)])
      (Entity.mk "T1" "Person" "A" [] (Span.mk 0 1) (0, 0))
      (Entity.mk "T2" "Person" "B" [] (Span.mk 2 3) (2, 2))
      rfl rfl rfl rfl rfl rfl (by decide) rfl rfl rfl (by decide)

/-! ## Unknown-id behaviour (C9) -/

theorem replaceFirstBy_eq_self (p : α → Bool) (f : α → α) (l : List α)
    (h : ∀ x ∈ l, p x = false) : replaceFirstBy p f l = l := by
  induction l with
  | nil => rfl
  | cons x xs ih =>
    simp only [replaceFirstBy, h x (List.mem_cons_self x xs)]
    simp [ih (fun y hy => h y (List.mem_cons_of_mem x hy))]

/-- C9.  Model operations invoked with an id that occurs nowhere in the
model are no-ops: editing an entity by an unknown id, deleting an entity
by an id that no entity bears and no relation references, and confirming
or deleting a relation by an unknown relation id all leave the entity and
relation collections unchanged (and, being total functions, return
normally rather than throwing). -/
theorem unknownId_noop (m : ModelState) (meta : List (String × RelSpec))
    (eid relId klass label name : String)
    (attrs na : List (String × JValue)) (no : AttrOrder)
    (hent : m.annotations.all (fun a => !(a.id == eid)) = true)
    (hrel : m.relations.all
      (fun r => !(r.subject == some eid) && !(r.object == some eid)) = true)
    (hrid : m.relations.all (fun r => !(r.id == relId)) = true) :
    confirmSaveAnnotationEdit m eid klass label attrs = m ∧
    deleteAnnotationById m eid = m ∧
    confirmRelation m meta relId name na no = m ∧
    deleteRelation m relId = m := by
  have hentf : ∀ a ∈ m.annotations, (a.id == eid) = false := by
    intro a ha
    have := List.all_eq_true.mp hent a ha
    simpa using this
  have hridf : ∀ r ∈ m.relations, (r.id == relId) = false := by
    intro r hr
    have := List.all_eq_true.mp hrid r hr
    simpa using this
  refine ⟨?_, ?_, ?_, ?_⟩
  · simp only [confirmSaveAnnotationEdit]
    rw [replaceFirstBy_eq_self _ _ _ hentf]
  · simp only [deleteAnnotationById]
    rw [List.filter_eq_self.mpr, List.filter_eq_self.mpr]
    · intro r hr
      exact List.all_eq_true.mp hrel r hr
    · intro a ha
      simp [hentf a ha]
  · simp only [confirmRelation]
    rw [replaceFirstBy_eq_self _ _ _ hridf]
  · simp only [deleteRelation]
    rw [List.filter_eq_self.mpr]
    intro r hr
    simp [hridf r hr]

/-- Witness for C9: a model with one entity `T1` and one relation `R1`;
operations aimed at `T9`/`R9` leave it unchanged. -/
theorem unknownId_noop_witness :
    confirmSaveAnnotationEdit
      (ModelState.mk [Entity.mk "T1" "Person" "A" [] (Span.mk 0 1) (0, 0)]
        [Relation.mk "R1" none (some "T1") none [] none])
      "T9" "Org" "B" [] =
      (ModelState.mk [Entity.mk "T1" "Person" "A" [] (Span.mk 0 1) (0, 0)]
        [Relation.mk "R1" none (some "T1") none [] none]) ∧
    deleteAnnotationById
      (ModelState.mk [Entity.mk "T1" "Person" "A" [] (Span.mk 0 1) (0, 0)]
        [Relation.mk "R1" none (some "T1") none [] none]) "T9" =
      (ModelState.mk [Entity.mk "T1" "Person" "A" [] (Span.mk 0 1) (0, 0)]
        [Relation.mk "R1" none (some "T1") none [] none]) ∧
    confirmRelation
      (ModelState.mk [Entity.mk "T1" "Person" "A" [] (Span.mk 0 1) (0, 0)]
        [Relation.mk "R1" none (some "T1") none [] none])
      [] "R9" "knows" [] (AttrOrder.mk [] [] []) =
      (ModelState.mk [Entity.mk "T1" "Person" "A" [] (Span.mk 0 1) (0, 0)]
        [Relation.mk "R1" none (some "T1") none [] none]) ∧
    deleteRelation
      (ModelState.mk [Entity.mk "T1" "Person" "A" [] (Span.mk 0 1) (0, 0)]
        [Relation.mk "R1" none (some "T1") none [] none]) "R9" =
      (ModelState.mk [Entity.mk "T1" "Person" "A" [] (Span.mk 0 1) (0, 0)]
        [Relation.mk "R1" none (some "T1") none [] none]) :=
  unknownId_noop
    (ModelState.mk [Entity.mk "T1" "Person" "A" [] (Span.mk 0 1) (0, 0)]
      [Relation.mk "R1" none (some "T1") none [] none])
    [] "T9" "R9" "Org" "B" "knows" [] [] (AttrOrder.mk [] [] [])
    (by decide) (by decide) (by decide)

/-! ## Annotation hydration (`loadTextResponse`, main.js) -/

/-- A saved entity from `GET /annotations/{id}`. -/
structure SavedEntity where
  id : String
  «class» : String
  label : String
  span : Span
  attributes : List (String × JValue)
deriving DecidableEq, Repr

/-- A saved relation from `GET /annotations/{id}`. -/
structure SavedRelation where
  id : String
  predicate : String
  subject : Option String
  object : Option String
  attributes : List (String × JValue)
deriving DecidableEq, Repr

/-- The entity hydration loop of `loadTextResponse`: entities whose span
maps to no token range are skipped. -/
def hydrateEntities (tokens : List Token) (ents : List SavedEntity) :
    List Entity :=
  ents.filterMap (fun ent =>
    (spanToTokenRange tokens ent.span).map (fun tr =>
      Entity.mk ent.id ent.«class» ent.label ent.attributes ent.span tr))

/-- The relation hydration loop of `loadTextResponse`: a saved relation is
kept only when both endpoints are among the hydrated entity ids; the
attribute order groups are recovered from the saved attribute names. -/
def hydrateRelations (annos : List Entity) (rels : List SavedRelation) :
    List Relation :=
  let ids := annos.map Entity.id
  rels.filterMap (fun r =>
    match r.subject, r.object with
    | some s, some o =>
      if ids.contains s && ids.contains o then
        some (Relation.mk r.id
          (if r.predicate.isEmpty then none else some r.predicate)
          (some s) (some o) r.attributes
          (some (AttrOrder.mk
            ((r.attributes.map Prod.fst).filter
              (fun k => k.startsWith "subject_"))
            ((r.attributes.map Prod.fst).filter
              (fun k => k.startsWith "object_"))
            ((r.attributes.map Prod.fst).filter
              (fun k => !(k == "edge_predicate") &&
                !(k.startsWith "subject_") && !(k.startsWith "object_"))))))
      else none
    | _, _ => none)

/-- The model state `loadTextResponse` builds from a saved annotation
payload. -/
def loadTextResponse (tokens : List Token) (se : List SavedEntity)
    (sr : List SavedRelation) : ModelState :=
  ModelState.mk (hydrateEntities tokens se)
    (hydrateRelations (hydrateEntities tokens se) sr)

/-- C10.  After hydration, every relation in the model references hydrated
entities: its subject and object ids are both present among the loaded
entity ids (relations mentioning dropped or missing entities were
discarded), so the loaded state satisfies referential integrity. -/
theorem loadTextResponse_integrity (tokens : List Token)
    (se : List SavedEntity) (sr : List SavedRelation) :
    (loadTextResponse tokens se sr).relations.all (fun r =>
      match r.subject, r.object with
      | some s, some o =>
        ((loadTextResponse tokens se sr).annotations.map Entity.id).contains s
        && ((loadTextResponse tokens se sr).annotations.map
          Entity.id).contains o
      | _, _ => false) = true := by
  apply List.all_eq_true.mpr
  intro r hr
  simp only [loadTextResponse] at hr
  obtain ⟨r0, hr0, hf⟩ := List.mem_filterMap.mp hr
  cases hsub : r0.subject with
  | none => rw [hsub] at hf; simp at hf
  | some s =>
    cases hobj : r0.object with
    | none => rw [hsub, hobj] at hf; simp at hf
    | some o =>
      rw [hsub, hobj] at hf
      simp only at hf
      by_cases hc : (((hydrateEntities tokens se).map Entity.id).contains s
          && ((hydrateEntities tokens se).map Entity.id).contains o) = true
      · rw [if_pos hc] at hf
        injection hf with hf
        subst hf
        simpa [loadTextResponse] using hc
      · rw [if_neg hc] at hf
        cases hf
